import Mathlib

/-!
A shallow embedding of the `leaktracer` crate (files `src/alloc.rs`,
`src/symbols.rs`, `src/symbols/demangle.rs`) together with theorems checking
the natural-language specification against it.

Modelling conventions:
* `usize` arithmetic (`AtomicUsize::fetch_add` / `fetch_sub`, which wrap) is
  `Nat` arithmetic modulo `2 ^ 64`.
* The `backtrace::Backtrace` captured by `get_demangled_symbol` is passed to
  the embedded functions as an explicit argument of type `List Frame`.
  Following the `backtrace` crate, the frame list is ordered innermost-first:
  element `0` is the most recently entered frame (the one adjacent to the
  capture point) and the last element is the outermost caller.
* The process-wide state (`LeaktracerAllocator.allocated`, the
  `SYMBOL_TABLE : OnceLock<Mutex<SymbolTable>>` and the calling thread's
  `IN_ALLOC` thread-local flag) is a record `GState` threaded explicitly;
  `table = none` models the `OnceLock` before `init_symbol_table`, and
  `poisoned` models the mutex poison flag.
* Transitions of the thread-local guard and the table mutation performed
  under the lock are additionally recorded as a ghost event list (`Ev`), so
  that ordering facts ("the guard is set before the table is touched") can be
  stated.
-/

namespace Leaktracer

/-- Modulus of `usize` arithmetic on a 64-bit platform. -/
def USIZE_MOD : Nat := 2 ^ 64

/-- Wrapping addition, the semantics of `AtomicUsize::fetch_add` (relaxed). -/
def wrapAdd (a b : Nat) : Nat := (a + b) % USIZE_MOD

/-- Wrapping subtraction, the semantics of `AtomicUsize::fetch_sub` (relaxed). -/
def wrapSub (a b : Nat) : Nat := (a + (USIZE_MOD - b % USIZE_MOD)) % USIZE_MOD

/-- Boolean prefix test on character lists (helper for `starts_with`). -/
def strStartsWithAux : List Char → List Char → Bool
  | [], _ => true
  | _ :: _, [] => false
  | p :: ps, c :: cs => p = c && strStartsWithAux ps cs

/-- Embedding of Rust `name.starts_with(pat)` on UTF-8 strings. -/
def starts_with (name pat : String) : Bool :=
  strStartsWithAux pat.data name.data

/-- The `UNKNOWN` sentinel of `src/symbols/demangle.rs`. -/
def UNKNOWN : String := "<unknown>"

/-- The fixed `IGNORE_LIST` of `src/symbols/demangle.rs`. -/
def IGNORE_LIST : List String :=
  ["leaktracer::symbols::demangle::get_demangled_symbol",
   "leaktracer::symbols::SymbolTable::alloc",
   "leaktracer::symbols::SymbolTable::dealloc",
   "leaktracer::alloc::LeaktracerAllocator::trace_allocation",
   "leaktracer::alloc::with_symbol_table_mut",
   "leaktracer::alloc::LeaktracerAllocator::trace",
   "leaktracer::alloc::LeaktracerAllocator::alloc",
   "leaktracer::alloc::LeaktracerAllocator::dealloc"]

/-- A `backtrace::BacktraceSymbol`: its (optional) demangled name, as the text
produced by `format!("{name}")` in the source. -/
structure BacktraceSymbol where
  name : Option String
deriving DecidableEq, Repr

/-- A `backtrace::BacktraceFrame`: the list returned by `frame.symbols()`. -/
structure Frame where
  symbols : List BacktraceSymbol
deriving DecidableEq, Repr

/-- Embedding of `name_str.rfind("::")`: the index of the start of the last
occurrence of the two-character pattern `::`, or `none` when absent.
(Byte indices and character indices of `:` agree for this purpose: the prefix
kept in `symbol_name` is the same string either way.) -/
def lastSepIdx : List Char → Option Nat
  | [] => none
  | c :: rest =>
    match lastSepIdx rest with
    | some i => some (i + 1)
    | none => if (c :: rest).take 2 = [':', ':'] then some 0 else none

/-- The proposition "the pattern `::` occurs in `cs` starting at index `p`";
used to specify `lastSepIdx`. -/
def sepAt (cs : List Char) (p : Nat) : Prop :=
  (cs.drop p).take 2 = [':', ':']

instance (cs : List Char) (p : Nat) : Decidable (sepAt cs p) := by
  unfold sepAt
  infer_instance

/-- Embedding of `symbol_name` from `src/symbols/demangle.rs`: take the
symbol's formatted name (if any) and cut it at the last `::`, keeping the
whole name when no `::` occurs. The `Box::leak` interning step has no
observable effect on the produced text and is dropped. -/
def symbol_name (symbol : BacktraceSymbol) : Option String :=
  match symbol.name with
  | none => none
  | some name_str =>
    some (match lastSepIdx name_str.data with
          | some pos => String.mk (name_str.data.take pos)
          | none => name_str)

/-- Body of the `find_map` closure in `get_symbol_from_backtrace`: given the
`enumerate` index of a frame, yield that index when the frame's first symbol
has a name that is not ignore-listed and starts with one of `modules`. -/
def frameScan (modules : List String) (frame : Frame) (index : Nat) : Option Nat :=
  match frame.symbols.head? with
  | none => none
  | some symbol =>
    match symbol.name with
    | none => none
    | some name =>
      if IGNORE_LIST.any (fun ignore => starts_with name ignore) then none
      else if modules.any (fun module => starts_with name module) then some index
      else none

/-- Embedding of `.frames().iter().enumerate().find_map(..)`: scan the frames
in backtrace order (innermost first), threading the `enumerate` counter. -/
def findFrameIndexFrom (modules : List String) (index : Nat) : List Frame → Option Nat
  | [] => none
  | frame :: rest =>
    match frameScan modules frame index with
    | some i => some i
    | none => findFrameIndexFrom modules (index + 1) rest

/-- Embedding of `get_symbol_from_backtrace` from `src/symbols/demangle.rs`. -/
def get_symbol_from_backtrace (frames : List Frame) (modules : List String) :
    Option BacktraceSymbol :=
  match findFrameIndexFrom modules 0 frames with
  | none => none
  | some i => (frames.get? i).bind fun frame => frame.symbols.head?

/-- Embedding of `get_demangled_symbol` from `src/symbols/demangle.rs`; the
captured backtrace is the explicit argument `bt` (innermost frame first). -/
def get_demangled_symbol (modules : List String) (bt : List Frame) : String :=
  match get_symbol_from_backtrace bt modules with
  | none => UNKNOWN
  | some caller => (symbol_name caller).getD UNKNOWN

/-- The filter the scan applies to one frame, factored out of the embedding
for specification purposes: the frame's first symbol, provided its name is
present, not ignore-listed, and allow-listed. -/
def selectFrame (modules : List String) (frame : Frame) : Option BacktraceSymbol :=
  match frame.symbols.head? with
  | none => none
  | some symbol =>
    match symbol.name with
    | none => none
    | some name =>
      if IGNORE_LIST.any (fun ignore => starts_with name ignore) then none
      else if modules.any (fun module => starts_with name module) then some symbol
      else none

/-- Reference selection in frame-list order: the first frame of the given
list (which is ordered innermost-first) passing the filter. This is the
amended reading of the scan-order claim. -/
def selectInnerFirst : List Frame → List String → Option BacktraceSymbol
  | [], _ => none
  | frame :: rest, modules =>
    match selectFrame modules frame with
    | some s => some s
    | none => selectInnerFirst rest modules

/-- Modelled from the spec's words for the scan-order claim: "walks frames
from outermost-caller-adjacent to innermost" and selects "the first remaining
frame (in that outer-to-inner scan order)" passing the filters. With frames
listed innermost-first (the backtrace order), outer-to-inner scanning is the
scan of the reversed list. -/
def selectOuterFirst (frames : List Frame) (modules : List String) :
    Option BacktraceSymbol :=
  selectInnerFirst frames.reverse modules

/-- A `Symbol` of `src/symbols.rs`: the pair of per-label atomic counters. -/
structure Symbol where
  allocated : Nat
  count : Nat
deriving DecidableEq, Repr

/-- Lookup in the association-list model of `HashMap<&'static str, Symbol>`:
`HashMap::get` / the positive side of `contains_key`. -/
def mapFind? : List (String × Symbol) → String → Option Symbol
  | [], _ => none
  | (k, v) :: rest, name => if k = name then some v else mapFind? rest name

/-- Insertion in the association-list model of the map (`HashMap::insert`):
replace the binding when the key is present, append it otherwise. -/
def mapInsert : List (String × Symbol) → String → Symbol → List (String × Symbol)
  | [], name, v => [(name, v)]
  | (k, v') :: rest, name, v =>
    if k = name then (name, v) :: rest else (k, v') :: mapInsert rest name v

/-- Point update of the binding of `name` (the effect of `HashMap::get_mut`
followed by mutation of the entry's counters). -/
def mapUpdate (m : List (String × Symbol)) (name : String) (f : Symbol → Symbol) :
    List (String × Symbol) :=
  m.map fun p => if p.1 = name then (p.1, f p.2) else p

/-- The `SymbolTable` of `src/symbols.rs`. `HashMap::with_capacity` only
preallocates, so the `size` argument of `SymbolTable::new` has no observable
effect and the map model is just the (initially empty) binding list. -/
structure SymbolTable where
  modules : List String
  symbols : List (String × Symbol)
deriving DecidableEq, Repr

/-- Embedding of `SymbolTable::new(size, modules)`. -/
def SymbolTable.new (modules : List String) : SymbolTable :=
  { modules := modules, symbols := [] }

/-- Embedding of `SymbolTable::get`. -/
def SymbolTable.get (table : SymbolTable) (name : String) : Option Symbol :=
  mapFind? table.symbols name

/-- Embedding of `SymbolTable::alloc(bytes)`: resolve the attribution label
from the ambient backtrace `bt`, create its entry if absent, then `fetch_add`
`bytes` to `allocated` and `1` to `count`. -/
def SymbolTable.alloc (table : SymbolTable) (bt : List Frame) (bytes : Nat) :
    SymbolTable :=
  let name := get_demangled_symbol table.modules bt
  let table1 :=
    if (mapFind? table.symbols name).isSome then table
    else { table with symbols := mapInsert table.symbols name ⟨0, 0⟩ }
  { table1 with
    symbols := mapUpdate table1.symbols name fun symbol =>
      { allocated := wrapAdd symbol.allocated bytes,
        count := wrapAdd symbol.count 1 } }

/-- Embedding of `SymbolTable::dealloc(bytes)`: resolve the attribution label
from the ambient backtrace `bt`; when an entry for it exists, `fetch_sub`
`bytes` from `allocated` and `1` from `count`; otherwise do nothing. -/
def SymbolTable.dealloc (table : SymbolTable) (bt : List Frame) (bytes : Nat) :
    SymbolTable :=
  let name := get_demangled_symbol table.modules bt
  match mapFind? table.symbols name with
  | some _ =>
    { table with
      symbols := mapUpdate table.symbols name fun symbol =>
        { allocated := wrapSub symbol.allocated bytes,
          count := wrapSub symbol.count 1 } }
  | none => table

/-- The process-wide state visible to the embedded operations, for one acting
thread: the allocator's aggregate counter, the `SYMBOL_TABLE` `OnceLock`
(`none` before `init_symbol_table`), the mutex poison flag, and the thread's
`IN_ALLOC` thread-local flag. -/
structure GState where
  allocated : Nat
  table : Option SymbolTable
  poisoned : Bool
  inAlloc : Bool
deriving DecidableEq, Repr

/-- Ghost events recording guard transitions and the table mutation performed
under the lock. -/
inductive Ev where
  | guardSet
  | guardClear
  | tableMutate
deriving DecidableEq, Repr

/-- Value of the thread's guard flag after replaying a list of ghost events on
top of an initial value. -/
def guardAfter (init : Bool) : List Ev → Bool
  | [] => init
  | Ev.guardSet :: rest => guardAfter true rest
  | Ev.guardClear :: rest => guardAfter false rest
  | Ev.tableMutate :: rest => guardAfter init rest

/-- Outcome of `with_symbol_table`: the `.expect` panic on an uninitialized
`OnceLock`, the `PoisonError` propagated by `lock()?`, or success. -/
inductive ReadResult (R : Type) where
  | panicked : ReadResult R
  | err : ReadResult R
  | ok : R → ReadResult R
deriving DecidableEq

/-- Embedding of the public `with_symbol_table` of `src/alloc.rs`: `.expect`
panics when the table was never initialized; `lock()?` returns the poison
error; otherwise the closure's value is returned. -/
def with_symbol_table {R : Type} (s : GState) (f : SymbolTable → R) : ReadResult R :=
  match s.table with
  | none => ReadResult.panicked
  | some t => if s.poisoned then ReadResult.err else ReadResult.ok (f t)

/-- Embedding of the internal `with_symbol_table_mut` of `src/alloc.rs`:
return silently when the table was never initialized; otherwise set the
thread's `IN_ALLOC` flag, and either clear it and return on lock poisoning, or
run `f` under the lock and clear it. The event list records the guard
transitions and the table mutation in program order. -/
def with_symbol_table_mut (f : SymbolTable → SymbolTable) (s : GState) :
    GState × List Ev :=
  match s.table with
  | none => (s, [])
  | some t =>
    if s.poisoned then
      ({ s with inAlloc := false }, [Ev.guardSet, Ev.guardClear])
    else
      ({ s with table := some (f t), inAlloc := false },
       [Ev.guardSet, Ev.tableMutate, Ev.guardClear])

/-- The `AllocOp` enumeration of `src/alloc.rs`. -/
inductive AllocOp where
  | Alloc
  | Dealloc
deriving DecidableEq, Repr

namespace LeaktracerAllocator

/-- Embedding of `LeaktracerAllocator::allocated`. -/
def allocated (s : GState) : Nat := s.allocated

/-- Embedding of `LeaktracerAllocator::is_external_allocation`. -/
def is_external_allocation (s : GState) : Bool := !s.inAlloc

/-- Embedding of `LeaktracerAllocator::trace_allocation`: `fetch_add` the size
to the aggregate counter, then update the symbol table. -/
def trace_allocation (s : GState) (bt : List Frame) (size : Nat) :
    GState × List Ev :=
  with_symbol_table_mut (fun table => table.alloc bt size)
    { s with allocated := wrapAdd s.allocated size }

/-- Embedding of `LeaktracerAllocator::trace_deallocation`: `fetch_sub` the
size from the aggregate counter, then update the symbol table. -/
def trace_deallocation (s : GState) (bt : List Frame) (size : Nat) :
    GState × List Ev :=
  with_symbol_table_mut (fun table => table.dealloc bt size)
    { s with allocated := wrapSub s.allocated size }

/-- Embedding of `LeaktracerAllocator::trace`: `enter_alloc`, dispatch on the
operation, `exit_alloc`. -/
def trace (s : GState) (bt : List Frame) (size : Nat) (op : AllocOp) :
    GState × List Ev :=
  let r :=
    match op with
    | AllocOp.Alloc => trace_allocation { s with inAlloc := true } bt size
    | AllocOp.Dealloc => trace_deallocation { s with inAlloc := true } bt size
  ({ r.1 with inAlloc := false }, Ev.guardSet :: r.2 ++ [Ev.guardClear])

/-- Embedding of `GlobalAlloc::alloc` for `LeaktracerAllocator`. The result of
the unconditional `System.alloc` delegation is modelled by the `ptrNull`
argument (whether the system allocator returned null); the returned `Bool`
records that delegation to the system allocator happened (every path). -/
def alloc (s : GState) (bt : List Frame) (size : Nat) (ptrNull : Bool) :
    GState × Bool :=
  if !ptrNull && is_external_allocation s then
    ((trace s bt size AllocOp.Alloc).1, true)
  else (s, true)

/-- Embedding of `GlobalAlloc::dealloc` for `LeaktracerAllocator`: trace only
when the pointer is non-null and the traffic is external, then delegate
unconditionally (the returned `Bool` records the delegation). -/
def dealloc (s : GState) (bt : List Frame) (size : Nat) (ptrNull : Bool) :
    GState × Bool :=
  if !ptrNull && is_external_allocation s then
    ((trace s bt size AllocOp.Dealloc).1, true)
  else (s, true)

end LeaktracerAllocator

/-- One externally-driven call to the allocator shim: the operation, the
requested size, and the ambient backtrace at the call. -/
structure Call where
  op : AllocOp
  size : Nat
  bt : List Frame
deriving DecidableEq, Repr

/-- Replay of a sequence of externally-driven shim calls (all with a non-null
system-allocator result). -/
def replay (s : GState) : List Call → GState
  | [] => s
  | ⟨AllocOp.Alloc, size, bt⟩ :: rest =>
    replay (LeaktracerAllocator.alloc s bt size false).1 rest
  | ⟨AllocOp.Dealloc, size, bt⟩ :: rest =>
    replay (LeaktracerAllocator.dealloc s bt size false).1 rest

/-- Total bytes requested by the `Alloc` calls of a sequence. -/
def sumAlloc : List Call → Nat
  | [] => 0
  | ⟨AllocOp.Alloc, size, _⟩ :: rest => size + sumAlloc rest
  | ⟨AllocOp.Dealloc, _, _⟩ :: rest => sumAlloc rest

/-- Total bytes requested by the `Dealloc` calls of a sequence. -/
def sumDealloc : List Call → Nat
  | [] => 0
  | ⟨AllocOp.Alloc, _, _⟩ :: rest => sumDealloc rest
  | ⟨AllocOp.Dealloc, size, _⟩ :: rest => size + sumDealloc rest

/-! Helper lemmas about the wrapping arithmetic. -/

theorem USIZE_MOD_pos : 0 < USIZE_MOD := by
  unfold USIZE_MOD
  positivity

theorem wrapAdd_eq_add {a b : Nat} (h : a + b < USIZE_MOD) : wrapAdd a b = a + b :=
  Nat.mod_eq_of_lt h

theorem wrapSub_eq_sub {a b : Nat} (hb : b ≤ a) (ha : a < USIZE_MOD) :
    wrapSub a b = a - b := by
  unfold wrapSub
  have hbW : b < USIZE_MOD := lt_of_le_of_lt hb ha
  rw [Nat.mod_eq_of_lt hbW]
  have h1 : a + (USIZE_MOD - b) = USIZE_MOD + (a - b) := by omega
  rw [h1, Nat.add_mod_left]
  exact Nat.mod_eq_of_lt (by omega)

theorem wrapSub_wrapAdd_zero (b : Nat) : wrapSub (wrapAdd 0 b) b = 0 := by
  unfold wrapSub wrapAdd
  have h1 : b % USIZE_MOD < USIZE_MOD := Nat.mod_lt _ USIZE_MOD_pos
  have h2 : (0 + b) % USIZE_MOD = b % USIZE_MOD := by rw [Nat.zero_add]
  rw [h2]
  have h3 : b % USIZE_MOD + (USIZE_MOD - b % USIZE_MOD) = USIZE_MOD := by omega
  rw [h3, Nat.mod_self]

/-! Helper lemmas about the association-list map model. -/

theorem mapFind?_mapInsert (m : List (String × Symbol)) (k : String) (v : Symbol)
    (k' : String) :
    mapFind? (mapInsert m k v) k' = if k' = k then some v else mapFind? m k' := by
  induction m with
  | nil =>
    by_cases h : k' = k
    · subst h
      simp [mapInsert, mapFind?]
    · simp [mapInsert, mapFind?, h, Ne.symm h]
  | cons p rest ih =>
    obtain ⟨a, b⟩ := p
    by_cases hak : a = k
    · subst hak
      by_cases h : a = k'
      · subst h
        simp [mapInsert, mapFind?]
      · simp [mapInsert, mapFind?, h, Ne.symm h]
    · by_cases h1 : a = k'
      · subst h1
        simp [mapInsert, mapFind?, hak, Ne.symm hak, ih]
      · by_cases h2 : k' = k
        · subst h2
          simp [mapInsert, mapFind?, hak, h1, ih]
        · simp [mapInsert, mapFind?, hak, h1, h2, ih]

theorem mapFind?_mapUpdate (m : List (String × Symbol)) (k : String)
    (f : Symbol → Symbol) (k' : String) :
    mapFind? (mapUpdate m k f) k'
      = if k' = k then (mapFind? m k').map f else mapFind? m k' := by
  induction m with
  | nil => by_cases h : k' = k <;> simp [mapUpdate, mapFind?, h]
  | cons p rest ih =>
    obtain ⟨a, b⟩ := p
    by_cases hak : a = k
    · subst hak
      have hu : mapUpdate ((a, b) :: rest) a f = (a, f b) :: mapUpdate rest a f := by
        simp [mapUpdate]
      rw [hu]
      by_cases h : a = k'
      · subst h
        simp [mapFind?, ih]
      · simp [mapFind?, h, Ne.symm h, ih]
    · have hu : mapUpdate ((a, b) :: rest) k f = (a, b) :: mapUpdate rest k f := by
        simp [mapUpdate, hak]
      rw [hu]
      by_cases h1 : a = k'
      · subst h1
        simp [mapFind?, hak, Ne.symm hak, ih]
      · by_cases h2 : k' = k
        · subst h2
          simp [mapFind?, hak, h1, ih]
        · simp [mapFind?, hak, h1, h2, ih]

/-! Helper lemmas about the symbol table operations. -/

theorem alloc_modules (table : SymbolTable) (bt : List Frame) (bytes : Nat) :
    (table.alloc bt bytes).modules = table.modules := by
  by_cases hf : (mapFind? table.symbols (get_demangled_symbol table.modules bt)).isSome <;>
    simp [SymbolTable.alloc, hf]

theorem dealloc_modules (table : SymbolTable) (bt : List Frame) (bytes : Nat) :
    (table.dealloc bt bytes).modules = table.modules := by
  cases hf : mapFind? table.symbols (get_demangled_symbol table.modules bt) <;>
    simp [SymbolTable.dealloc, hf]

theorem alloc_symbols_find (table : SymbolTable) (bt : List Frame) (bytes : Nat)
    (k : String) :
    mapFind? (table.alloc bt bytes).symbols k
      = if k = get_demangled_symbol table.modules bt
        then some (match mapFind? table.symbols k with
                   | some sym => ⟨wrapAdd sym.allocated bytes, wrapAdd sym.count 1⟩
                   | none => ⟨wrapAdd 0 bytes, wrapAdd 0 1⟩)
        else mapFind? table.symbols k := by
  by_cases hk : k = get_demangled_symbol table.modules bt
  · cases hf : mapFind? table.symbols k with
    | some sym =>
      subst hk
      simp [SymbolTable.alloc, hf, mapFind?_mapUpdate]
    | none =>
      subst hk
      simp [SymbolTable.alloc, hf, mapFind?_mapUpdate, mapFind?_mapInsert]
  · cases hf : mapFind? table.symbols (get_demangled_symbol table.modules bt) with
    | some sym => simp [SymbolTable.alloc, hf, mapFind?_mapUpdate, hk]
    | none => simp [SymbolTable.alloc, hf, mapFind?_mapUpdate, mapFind?_mapInsert, hk]

theorem dealloc_symbols_find (table : SymbolTable) (bt : List Frame) (bytes : Nat)
    (k : String) :
    mapFind? (table.dealloc bt bytes).symbols k
      = match mapFind? table.symbols (get_demangled_symbol table.modules bt) with
        | none => mapFind? table.symbols k
        | some _ =>
          if k = get_demangled_symbol table.modules bt
          then (mapFind? table.symbols k).map
            (fun sym => ⟨wrapSub sym.allocated bytes, wrapSub sym.count 1⟩)
          else mapFind? table.symbols k := by
  cases hf : mapFind? table.symbols (get_demangled_symbol table.modules bt) with
  | none => simp [SymbolTable.dealloc, hf]
  | some sym => simp [SymbolTable.dealloc, hf, mapFind?_mapUpdate]

/-! Helper lemmas about the allocator state machine. -/

theorem wstm_fst_allocated (f : SymbolTable → SymbolTable) (s : GState) :
    ((with_symbol_table_mut f s).1).allocated = s.allocated := by
  obtain ⟨a, tb, p, g⟩ := s
  cases tb <;> cases p <;> rfl

theorem wstm_fst_poisoned (f : SymbolTable → SymbolTable) (s : GState) :
    ((with_symbol_table_mut f s).1).poisoned = s.poisoned := by
  obtain ⟨a, tb, p, g⟩ := s
  cases tb <;> cases p <;> rfl

theorem trace_fst_inAlloc (s : GState) (bt : List Frame) (size : Nat) (op : AllocOp) :
    ((LeaktracerAllocator.trace s bt size op).1).inAlloc = false := by
  cases op <;> rfl

theorem trace_alloc_allocated (s : GState) (bt : List Frame) (size : Nat) :
    ((LeaktracerAllocator.trace s bt size AllocOp.Alloc).1).allocated
      = wrapAdd s.allocated size := by
  simp [LeaktracerAllocator.trace, LeaktracerAllocator.trace_allocation, wstm_fst_allocated]

theorem trace_dealloc_allocated (s : GState) (bt : List Frame) (size : Nat) :
    ((LeaktracerAllocator.trace s bt size AllocOp.Dealloc).1).allocated
      = wrapSub s.allocated size := by
  simp [LeaktracerAllocator.trace, LeaktracerAllocator.trace_deallocation, wstm_fst_allocated]

/-! Helper lemmas about the frame scan. -/

theorem frameScan_none_iff (modules : List String) (frame : Frame) (i : Nat) :
    frameScan modules frame i = none ↔ selectFrame modules frame = none := by
  cases hs : frame.symbols.head? with
  | none => simp [frameScan, selectFrame, hs]
  | some symbol =>
    cases hn : symbol.name with
    | none => simp [frameScan, selectFrame, hs, hn]
    | some name =>
      simp only [frameScan, selectFrame, hs, hn]
      split_ifs <;> simp

theorem frameScan_some (modules : List String) (frame : Frame) (i j : Nat)
    (h : frameScan modules frame i = some j) :
    j = i ∧ ∃ symbol, frame.symbols.head? = some symbol
      ∧ selectFrame modules frame = some symbol := by
  cases hs : frame.symbols.head? with
  | none => simp [frameScan, hs] at h
  | some symbol =>
    cases hn : symbol.name with
    | none => simp [frameScan, hs, hn] at h
    | some name =>
      simp only [frameScan, hs, hn] at h
      simp only [selectFrame, hs, hn]
      split_ifs at h with h1 h2
      simp_all

theorem frameScan_shift (modules : List String) (frame : Frame) (i : Nat) :
    frameScan modules frame (i + 1) = (frameScan modules frame i).map (· + 1) := by
  cases hs : frame.symbols.head? with
  | none => simp [frameScan, hs]
  | some symbol =>
    cases hn : symbol.name with
    | none => simp [frameScan, hs, hn]
    | some name =>
      simp only [frameScan, hs, hn]
      split_ifs <;> simp

theorem findFrameIndexFrom_succ (frames : List Frame) (modules : List String)
    (n : Nat) :
    findFrameIndexFrom modules (n + 1) frames
      = (findFrameIndexFrom modules n frames).map (· + 1) := by
  induction frames generalizing n with
  | nil => rfl
  | cons frame rest ih =>
    simp only [findFrameIndexFrom, frameScan_shift]
    cases hf : frameScan modules frame n with
    | some j => simp
    | none => simp [ih]

/-! Helper lemmas about `lastSepIdx`. -/

theorem sepAt_le_length (cs : List Char) (q : Nat) (h : sepAt cs q) : q ≤ cs.length := by
  by_contra hq
  push_neg at hq
  unfold sepAt at h
  rw [List.drop_eq_nil_of_le (le_of_lt hq)] at h
  simp at h

theorem sepAt_cons_succ (c : Char) (rest : List Char) (p : Nat) :
    sepAt (c :: rest) (p + 1) ↔ sepAt rest p := by
  unfold sepAt
  rw [List.drop_succ_cons]

theorem lastSepIdx_spec (cs : List Char) :
    (lastSepIdx cs = none → ∀ p, ¬ sepAt cs p)
    ∧ (∀ p, lastSepIdx cs = some p → sepAt cs p ∧ ∀ q, sepAt cs q → q ≤ p) := by
  induction cs with
  | nil =>
    constructor
    · intro _ p
      unfold sepAt
      simp
    · intro p h
      simp [lastSepIdx] at h
  | cons c rest ih =>
    obtain ⟨ihn, ihs⟩ := ih
    constructor
    · intro h p
      cases hr : lastSepIdx rest with
      | some i => simp [lastSepIdx, hr] at h
      | none =>
        simp only [lastSepIdx, hr] at h
        cases p with
        | zero =>
          intro hp
          unfold sepAt at hp
          simp only [List.drop_zero] at hp
          rw [if_pos hp] at h
          exact Option.noConfusion h
        | succ p' =>
          rw [sepAt_cons_succ]
          exact ihn hr p'
    · intro p h
      cases hr : lastSepIdx rest with
      | some i =>
        simp only [lastSepIdx, hr] at h
        obtain ⟨hsep, hmax⟩ := ihs i hr
        cases h
        constructor
        · rw [sepAt_cons_succ]
          exact hsep
        · intro q hq
          cases q with
          | zero => exact Nat.zero_le _
          | succ q' =>
            rw [sepAt_cons_succ] at hq
            exact Nat.succ_le_succ (hmax q' hq)
      | none =>
        simp only [lastSepIdx, hr] at h
        by_cases hc : (c :: rest).take 2 = [':', ':']
        · rw [if_pos hc] at h
          cases h
          constructor
          · unfold sepAt
            simpa using hc
          · intro q hq
            cases q with
            | zero => exact Nat.le_refl 0
            | succ q' =>
              rw [sepAt_cons_succ] at hq
              exact absurd hq (ihn hr q')
        · rw [if_neg hc] at h
          exact Option.noConfusion h

/-- Invariant of the replay of externally-driven shim calls: starting from a
state with the guard clear, the aggregate counter tracks the running
difference of allocated and deallocated bytes, provided no deallocation
overtakes the bytes allocated so far and the total never reaches the `usize`
modulus. -/
theorem replay_allocated_aux (calls : List Call) (s : GState)
    (hg : s.inAlloc = false)
    (hov : s.allocated + sumAlloc calls < USIZE_MOD)
    (hbal : ∀ n, n ≤ calls.length →
      sumDealloc (calls.take n) ≤ s.allocated + sumAlloc (calls.take n)) :
    (replay s calls).allocated = s.allocated + sumAlloc calls - sumDealloc calls := by
  induction calls generalizing s with
  | nil => simp [replay, sumAlloc, sumDealloc]
  | cons call rest ih =>
    obtain ⟨op, size, bt⟩ := call
    cases op with
    | Alloc =>
      simp only [sumAlloc, sumDealloc, List.length_cons] at hov hbal ⊢
      have hsz : s.allocated + size < USIZE_MOD := by omega
      have hstep :
          (LeaktracerAllocator.alloc s bt size false).1
            = (LeaktracerAllocator.trace s bt size AllocOp.Alloc).1 := by
        simp [LeaktracerAllocator.alloc, LeaktracerAllocator.is_external_allocation, hg]
      simp only [replay, hstep]
      set s' := (LeaktracerAllocator.trace s bt size AllocOp.Alloc).1 with hs'
      have ha : s'.allocated = s.allocated + size := by
        rw [hs', trace_alloc_allocated, wrapAdd_eq_add hsz]
      have hg' : s'.inAlloc = false := trace_fst_inAlloc s bt size AllocOp.Alloc
      have hov' : s'.allocated + sumAlloc rest < USIZE_MOD := by omega
      have hbal' : ∀ n, n ≤ rest.length →
          sumDealloc (rest.take n) ≤ s'.allocated + sumAlloc (rest.take n) := by
        intro n hn
        have := hbal (n + 1) (by omega)
        simp only [List.take_succ_cons, sumAlloc, sumDealloc, Nat.zero_add] at this
        omega
      rw [ih s' hg' hov' hbal']
      omega
    | Dealloc =>
      simp only [sumAlloc, sumDealloc, List.length_cons] at hov hbal ⊢
      have hb1 := hbal 1 (by omega)
      simp only [List.take_succ_cons, List.take_zero, sumAlloc, sumDealloc,
        Nat.add_zero] at hb1
      have hle : size ≤ s.allocated := by omega
      have hstep :
          (LeaktracerAllocator.dealloc s bt size false).1
            = (LeaktracerAllocator.trace s bt size AllocOp.Dealloc).1 := by
        simp [LeaktracerAllocator.dealloc, LeaktracerAllocator.is_external_allocation, hg]
      simp only [replay, hstep]
      set s' := (LeaktracerAllocator.trace s bt size AllocOp.Dealloc).1 with hs'
      have ha : s'.allocated = s.allocated - size := by
        rw [hs', trace_dealloc_allocated, wrapSub_eq_sub hle (by omega)]
      have hg' : s'.inAlloc = false := trace_fst_inAlloc s bt size AllocOp.Dealloc
      have hov' : s'.allocated + sumAlloc rest < USIZE_MOD := by omega
      have hbal' : ∀ n, n ≤ rest.length →
          sumDealloc (rest.take n) ≤ s'.allocated + sumAlloc (rest.take n) := by
        intro n hn
        have := hbal (n + 1) (by omega)
        simp only [List.take_succ_cons, sumAlloc, sumDealloc, Nat.zero_add] at this
        omega
      rw [ih s' hg' hov' hbal']
      omega

/-- C1: for every sequence of externally-driven allocate/deallocate shim calls
(the guard is clear at the start and every system allocation succeeds), the
aggregate counter read by `allocated` afterwards equals the sum of the
allocated sizes minus the sum of the deallocated sizes, assuming balanced
pairs (no prefix deallocates more than was allocated) and no `usize`
overflow. -/
theorem total_allocated_replay (calls : List Call) (s : GState)
    (hg : s.inAlloc = false) (h0 : s.allocated = 0)
    (hov : sumAlloc calls < USIZE_MOD)
    (hbal : ∀ n, n ≤ calls.length →
      sumDealloc (calls.take n) ≤ sumAlloc (calls.take n)) :
    LeaktracerAllocator.allocated (replay s calls)
      = sumAlloc calls - sumDealloc calls := by
  have h := replay_allocated_aux calls s hg (by omega)
    (fun n hn => by have := hbal n hn; omega)
  unfold LeaktracerAllocator.allocated
  omega

/-- Witness for C1: a concrete balanced sequence of two allocations and two
deallocations replays to an aggregate of `8 - 8`. -/
theorem total_allocated_replay_witness :
    LeaktracerAllocator.allocated (replay ⟨0, none, false, false⟩
        [⟨AllocOp.Alloc, 5, []⟩, ⟨AllocOp.Alloc, 3, []⟩,
         ⟨AllocOp.Dealloc, 3, []⟩, ⟨AllocOp.Dealloc, 5, []⟩])
      = sumAlloc [⟨AllocOp.Alloc, 5, []⟩, ⟨AllocOp.Alloc, 3, []⟩,
          ⟨AllocOp.Dealloc, 3, []⟩, ⟨AllocOp.Dealloc, 5, []⟩]
        - sumDealloc [⟨AllocOp.Alloc, 5, []⟩, ⟨AllocOp.Alloc, 3, []⟩,
          ⟨AllocOp.Dealloc, 3, []⟩, ⟨AllocOp.Dealloc, 5, []⟩] :=
  total_allocated_replay _ _ rfl rfl (by decide) (by decide)

/-- C2: an allocation or deallocation performed while the calling thread's
`IN_ALLOC` guard is set changes nothing at all — neither the aggregate
counter nor any symbol table entry — and only delegates to the system
allocator (the `true` component). -/
theorem guarded_traffic_untracked (s : GState) (bt : List Frame) (size : Nat)
    (ptrNull : Bool) (h : s.inAlloc = true) :
    LeaktracerAllocator.alloc s bt size ptrNull = (s, true)
    ∧ LeaktracerAllocator.dealloc s bt size ptrNull = (s, true) := by
  constructor <;>
    simp [LeaktracerAllocator.alloc, LeaktracerAllocator.dealloc,
      LeaktracerAllocator.is_external_allocation, h]

/-- Witness for C2 at a concrete guarded state. -/
theorem guarded_traffic_untracked_witness :
    LeaktracerAllocator.alloc ⟨7, none, false, true⟩ [] 5 false
      = (⟨7, none, false, true⟩, true) :=
  (guarded_traffic_untracked ⟨7, none, false, true⟩ [] 5 false rfl).1

/-- C3 counterexample: on a pre-`initialize` state, `with_symbol_table` hits
the `.expect("Symbol table not initialized")` panic; it does not return the
recoverable (poison) error to the caller, contrary to the claim that the
failure is a recoverable error condition rather than a crash. -/
theorem read_before_init_cex :
    with_symbol_table ⟨0, none, false, false⟩
        (fun table => mapFind? table.symbols "probe")
      = ReadResult.panicked
    ∧ (ReadResult.panicked : ReadResult (Option Symbol)) ≠ ReadResult.err := by
  exact ⟨rfl, by decide⟩

/-- C3 amended: calling `with_symbol_table` before `init_symbol_table` panics
(the `.expect` on the empty `OnceLock`); it neither succeeds with an empty
table nor returns the recoverable lock error. -/
theorem read_before_init_panics {R : Type} (s : GState) (f : SymbolTable → R)
    (h : s.table = none) : with_symbol_table s f = ReadResult.panicked := by
  simp [with_symbol_table, h]

/-- Witness for the amended C3 at a concrete uninitialized state. -/
theorem read_before_init_panics_witness :
    with_symbol_table ⟨0, none, false, false⟩ (fun table => table.modules)
      = ReadResult.panicked :=
  read_before_init_panics ⟨0, none, false, false⟩ (fun table => table.modules) rfl

/-- C4: an external allocation (or deallocation) before `init_symbol_table`
still adjusts the aggregate counter, while the per-symbol update is a silent
no-op: the table stays uninitialized (so no entry is created or modified),
nothing fails, and the guard ends clear. -/
theorem pre_init_alloc_aggregate_only (s : GState) (bt : List Frame) (size : Nat)
    (ht : s.table = none) (hg : s.inAlloc = false) :
    (LeaktracerAllocator.alloc s bt size false).1
        = { s with allocated := wrapAdd s.allocated size }
    ∧ (LeaktracerAllocator.dealloc s bt size false).1
        = { s with allocated := wrapSub s.allocated size } := by
  obtain ⟨a, tb, p, g⟩ := s
  simp only at ht hg
  subst ht
  subst hg
  constructor <;>
    simp [LeaktracerAllocator.alloc, LeaktracerAllocator.dealloc,
      LeaktracerAllocator.is_external_allocation, LeaktracerAllocator.trace,
      LeaktracerAllocator.trace_allocation, LeaktracerAllocator.trace_deallocation,
      with_symbol_table_mut]

/-- Witness for C4 at a concrete pre-`initialize` state. -/
theorem pre_init_alloc_aggregate_only_witness :
    (LeaktracerAllocator.alloc ⟨0, none, false, false⟩ [] 5 false).1
      = (⟨wrapAdd 0 5, none, false, false⟩ : GState) :=
  (pre_init_alloc_aggregate_only ⟨0, none, false, false⟩ [] 5 rfl rfl).1

/-- C5 counterexample: deallocating under a label with no existing entry does
not create the entry — the table is left unchanged and the attributed label
(`"probe::f"` here) still has no entry afterwards, contrary to the claim that
a decrement lazily creates the entry before adjusting it. -/
theorem dealloc_missing_entry_cex :
    get_demangled_symbol ["probe"] [⟨[⟨some "probe::f::h1"⟩]⟩] = "probe::f"
    ∧ SymbolTable.dealloc ⟨["probe"], []⟩ [⟨[⟨some "probe::f::h1"⟩]⟩] 5
        = (⟨["probe"], []⟩ : SymbolTable)
    ∧ mapFind?
        (SymbolTable.dealloc ⟨["probe"], []⟩ [⟨[⟨some "probe::f::h1"⟩]⟩] 5).symbols
        "probe::f"
      = none := by
  exact ⟨by decide, by decide, by decide⟩

/-- C5 amended: `SymbolTable::dealloc` adjusts the counters of the entry for
the attributed label only when that entry already exists; when no entry
exists it is a no-op (it creates nothing), unlike `alloc`, which creates
lazily. -/
theorem dealloc_requires_existing_entry (table : SymbolTable) (bt : List Frame)
    (bytes : Nat) :
    (mapFind? table.symbols (get_demangled_symbol table.modules bt) = none →
      table.dealloc bt bytes = table)
    ∧ (∀ sym,
        mapFind? table.symbols (get_demangled_symbol table.modules bt) = some sym →
        mapFind? (table.dealloc bt bytes).symbols
            (get_demangled_symbol table.modules bt)
          = some ⟨wrapSub sym.allocated bytes, wrapSub sym.count 1⟩) := by
  constructor
  · intro h
    simp [SymbolTable.dealloc, h]
  · intro sym h
    rw [dealloc_symbols_find, h]
    simp

/-- Witness for the amended C5 at a concrete table with no matching entry. -/
theorem dealloc_requires_existing_entry_witness :
    SymbolTable.dealloc ⟨["probe"], []⟩ [⟨[⟨some "probe::f::h1"⟩]⟩] 9
      = (⟨["probe"], []⟩ : SymbolTable) :=
  (dealloc_requires_existing_entry ⟨["probe"], []⟩ [⟨[⟨some "probe::f::h1"⟩]⟩] 9).1
    (by decide)

/-- C6 counterexample: with the backtrace listed innermost-first (the
`backtrace` crate's frame order), the code selects the *first* matching frame
in that order — the innermost one — whereas the claimed outer-to-inner scan
would select the outermost matching frame; on a stack with two allow-listed
frames the two disagree. -/
theorem attribution_scan_order_cex :
    get_symbol_from_backtrace
        [⟨[⟨some "probe::inner::h1"⟩]⟩, ⟨[⟨some "probe::outer::h2"⟩]⟩] ["probe"]
      = some ⟨some "probe::inner::h1"⟩
    ∧ selectOuterFirst
        [⟨[⟨some "probe::inner::h1"⟩]⟩, ⟨[⟨some "probe::outer::h2"⟩]⟩] ["probe"]
      = some ⟨some "probe::outer::h2"⟩
    ∧ BacktraceSymbol.mk (some "probe::inner::h1")
        ≠ BacktraceSymbol.mk (some "probe::outer::h2") := by
  exact ⟨by decide, by decide, by decide⟩

/-- C6 amended: the scan walks the frames in the order the backtrace yields
them — innermost first — taking each frame's first symbol, rejecting
ignore-listed names, and selecting the first remaining allow-listed frame in
that (inner-to-outer) order; equivalently, the code's index-based selection
equals the direct first-match scan of the frame list. -/
theorem attribution_scan_inner_first (frames : List Frame) (modules : List String) :
    get_symbol_from_backtrace frames modules = selectInnerFirst frames modules := by
  induction frames with
  | nil => rfl
  | cons frame rest ih =>
    cases hf : frameScan modules frame 0 with
    | some j =>
      obtain ⟨hj, symbol, hhead, hsel⟩ := frameScan_some modules frame 0 j hf
      subst hj
      simp [get_symbol_from_backtrace, findFrameIndexFrom, hf, selectInnerFirst,
        hsel, hhead]
    | none =>
      have hsel : selectFrame modules frame = none :=
        (frameScan_none_iff modules frame 0).1 hf
      simp only [get_symbol_from_backtrace, findFrameIndexFrom, hf, selectInnerFirst,
        hsel]
      rw [findFrameIndexFrom_succ]
      cases hr : findFrameIndexFrom modules 0 rest with
      | none =>
        simp only [get_symbol_from_backtrace, hr] at ih
        simp [hr, ih]
      | some i =>
        simp only [get_symbol_from_backtrace, hr] at ih
        simpa [hr] using ih

/-- C7: `symbol_name` produces the name cut at the *last* `::` separator —
everything from the final `::` on is dropped, whatever the suffix is — and a
name containing no `::` at all is kept whole. -/
theorem symbol_name_strips_after_last_sep (name : String) :
    ((∀ p, p ≤ name.data.length → ¬ sepAt name.data p) →
        symbol_name ⟨some name⟩ = some name)
    ∧ (∀ p, sepAt name.data p →
        (∀ q, q ≤ name.data.length → sepAt name.data q → q ≤ p) →
        symbol_name ⟨some name⟩ = some (String.mk (name.data.take p))) := by
  obtain ⟨hnone, hsome⟩ := lastSepIdx_spec name.data
  constructor
  · intro h
    cases hl : lastSepIdx name.data with
    | none => simp [symbol_name, hl]
    | some m =>
      obtain ⟨hm, _⟩ := hsome m hl
      exact absurd hm (h m (sepAt_le_length _ _ hm))
  · intro p hp hmax
    cases hl : lastSepIdx name.data with
    | none => exact absurd hp (hnone hl p)
    | some m =>
      obtain ⟨hm, hmx⟩ := hsome m hl
      have h1 : m ≤ p := hmax m (sepAt_le_length _ _ hm) hm
      have h2 : p ≤ m := hmx p hp
      have h3 : p = m := le_antisymm h2 h1
      subst h3
      simp [symbol_name, hl]

/-- Witness for C7: `"probe::f::h123"` is cut at its last `::` (index 8),
yielding `"probe::f"`. -/
theorem symbol_name_strips_witness :
    symbol_name ⟨some "probe::f::h123"⟩
      = some (String.mk ("probe::f::h123".data.take 8)) :=
  (symbol_name_strips_after_last_sep "probe::f::h123").2 8 (by decide) (by decide)

/-- C8: neither `alloc` nor `dealloc` ever removes a symbol table entry (the
key set grows monotonically), and a fresh label allocated with `N` bytes and
then deallocated with the same `N` bytes ends with its entry still present,
holding `allocated = 0` and `count = 0`. -/
theorem symbol_entries_never_removed (table : SymbolTable) (bt : List Frame)
    (bytes : Nat) :
    (∀ k, (mapFind? table.symbols k).isSome →
        ((mapFind? (table.alloc bt bytes).symbols k).isSome
          ∧ (mapFind? (table.dealloc bt bytes).symbols k).isSome))
    ∧ (mapFind? table.symbols (get_demangled_symbol table.modules bt) = none →
        mapFind? ((table.alloc bt bytes).dealloc bt bytes).symbols
            (get_demangled_symbol table.modules bt)
          = some ⟨0, 0⟩) := by
  constructor
  · intro k hk
    constructor
    · rw [alloc_symbols_find]
      split_ifs with h
      · simp
      · exact hk
    · rw [dealloc_symbols_find]
      cases hf : mapFind? table.symbols (get_demangled_symbol table.modules bt) with
      | none => exact hk
      | some sym =>
        split_ifs with h
        · simpa using hk
        · exact hk
  · intro h
    have hmod := alloc_modules table bt bytes
    have h1 : mapFind? (table.alloc bt bytes).symbols
        (get_demangled_symbol table.modules bt)
        = some ⟨wrapAdd 0 bytes, wrapAdd 0 1⟩ := by
      rw [alloc_symbols_find, if_pos rfl, h]
    rw [dealloc_symbols_find, hmod, h1]
    simp [wrapSub_wrapAdd_zero]

/-- Witness for C8: a fresh label allocated and deallocated with 7 bytes ends
present with zeroed counters. -/
theorem symbol_entries_never_removed_witness :
    mapFind?
        ((SymbolTable.alloc ⟨["probe"], []⟩ [⟨[⟨some "probe::g::h2"⟩]⟩] 7).dealloc
            [⟨[⟨some "probe::g::h2"⟩]⟩] 7).symbols
        (get_demangled_symbol ["probe"] [⟨[⟨some "probe::g::h2"⟩]⟩])
      = some ⟨0, 0⟩ :=
  (symbol_entries_never_removed ⟨["probe"], []⟩ [⟨[⟨some "probe::g::h2"⟩]⟩] 7).2
    (by decide)

/-- C9: on every path of `trace` the guard is set first (the event list starts
with `guardSet`), it is set whenever the table mutation happens (any
`tableMutate` event occurs with the guard flag true), every path ends with
the guard clear (both the final state's flag and the replayed events say so),
and in particular the early return taken when lock acquisition fails clears
the guard before returning. -/
theorem guard_discipline (s : GState) (bt : List Frame) (size : Nat) (op : AllocOp) :
    ((LeaktracerAllocator.trace s bt size op).1).inAlloc = false
    ∧ ((LeaktracerAllocator.trace s bt size op).2).head? = some Ev.guardSet
    ∧ guardAfter s.inAlloc ((LeaktracerAllocator.trace s bt size op).2) = false
    ∧ (∀ i, ((LeaktracerAllocator.trace s bt size op).2).get? i = some Ev.tableMutate →
        guardAfter s.inAlloc (((LeaktracerAllocator.trace s bt size op).2).take i)
          = true)
    ∧ (∀ f : SymbolTable → SymbolTable, ∀ t, s.table = some t → s.poisoned = true →
        with_symbol_table_mut f s
          = ({ s with inAlloc := false }, [Ev.guardSet, Ev.guardClear])) := by
  refine ⟨trace_fst_inAlloc s bt size op, rfl, ?_, ?_, ?_⟩
  · obtain ⟨a, tb, p, g⟩ := s
    cases op <;> cases tb <;> cases p <;> rfl
  · obtain ⟨a, tb, p, g⟩ := s
    intro i hi
    cases op <;> cases tb <;> cases p <;>
      rcases i with _ | _ | _ | _ | _ | i <;>
      simp_all [LeaktracerAllocator.trace, LeaktracerAllocator.trace_allocation,
        LeaktracerAllocator.trace_deallocation, with_symbol_table_mut,
        guardAfter, List.get?, List.take]
  · intro f t ht hp
    simp [with_symbol_table_mut, ht, hp]

/-- Witness for C9: on a concrete initialized, unpoisoned state the table
mutation happens at event index 2 and the guard is set at that point. -/
theorem guard_discipline_witness :
    ((LeaktracerAllocator.trace ⟨0, some ⟨["probe"], []⟩, false, false⟩ [] 4
        AllocOp.Alloc).1).inAlloc = false
    ∧ guardAfter false
        (((LeaktracerAllocator.trace ⟨0, some ⟨["probe"], []⟩, false, false⟩ [] 4
            AllocOp.Alloc).2).take 2) = true :=
  have h := guard_discipline ⟨0, some ⟨["probe"], []⟩, false, false⟩ [] 4 AllocOp.Alloc
  ⟨h.1, h.2.2.2.1 2 (by decide)⟩

/-- C10: a deallocation request with a null pointer is not tracked at all —
the whole state (aggregate counter and every symbol entry) is unchanged, for
any state, guard clear or not — while delegation to the system allocator
still happens. -/
theorem null_dealloc_untracked (s : GState) (bt : List Frame) (size : Nat) :
    LeaktracerAllocator.dealloc s bt size true = (s, true) := rfl

end Leaktracer
